import Mathlib

/-!
Verification of the virtual-to-physical address translator in
`src/backend/main.py` (a FastAPI service).  The Python source is shallowly
embedded here: every Python string is modelled as a Lean `String` or a
`List Char`, Python `int` values as `Nat`/`Int` (Python integers are
unbounded, so no wrap-around modelling is needed), Python dicts as
association lists with last-write-wins insertion, and raised exceptions as
`Except`/dedicated error constructors.

Floating point caveat: `compute_bits` in the source calls `math.log2`,
which goes through double precision.  The helpers `log2_round` /
`log2_ceil` below are the *exact* real-number values of
`round(log2 n)` / `ceil(log2 n)`; the double-based program agrees with
them at exact powers of two (conversion and logarithm are then exact) but
can disagree for large non-powers (e.g. `ceil(log2 (2^49 + 1))` computed
through doubles can come out as `49` instead of `50`).  Every theorem
below therefore relies on these helpers only at powers of two.
-/

namespace Paging

deriving instance DecidableEq for Except

/-! ### Character-level helpers modelling Python `str` operations

Lean's built-in `String.toUpper`, `String.trim`, `String.splitOn` do not
reduce well in the kernel, so the embedding works on `String.data`
(`List Char`) with hand-rolled equivalents.  Unicode subtleties of Python's
`str.upper`/`str.lower`/`str.isdigit` beyond ASCII are not modelled; none
of the verified inputs exercise them. -/

/-- Python `s.upper()` (ASCII). -/
def toUpperL (l : List Char) : List Char := l.map Char.toUpper

/-- One-character case folding for Python `s.lower()`: ASCII letters plus
the capital enye `Ñ` (the only non-ASCII letter occurring in the keys
`parse_txt` recognises, via `tamaño_pagina`).  Other exotic one-off
Unicode case mappings (such as the Kelvin sign lowering to `k`) are not
modelled. -/
def pyCharLower (c : Char) : Char := if c = 'Ñ' then 'ñ' else c.toLower

/-- Python `s.lower()` (ASCII plus `Ñ`, see `pyCharLower`). -/
def toLowerL (l : List Char) : List Char := l.map pyCharLower

/-- Python `s.strip()`: remove leading and trailing whitespace. -/
def pyStrip (l : List Char) : List Char :=
  ((l.dropWhile Char.isWhitespace).reverse.dropWhile Char.isWhitespace).reverse

/-- Python `s.replace(" ", "")`. -/
def removeSpaces (l : List Char) : List Char := l.filter (fun c => c != ' ')

/-- Value of a (nonempty) decimal digit string. -/
def digitsVal (l : List Char) : Nat :=
  l.foldl (fun a c => 10 * a + (c.toNat - '0'.toNat)) 0

/-- Python `str.isdigit()` restricted to ASCII: nonempty and all digits. -/
def pyIsDigit (l : List Char) : Bool := !l.isEmpty && l.all Char.isDigit

/-- Continuation of `validIntTok`, entered right after a digit: the rest
must be a possibly empty sequence of digits with single underscores
allowed only between two digits (PEP 515). -/
def validIntTokAux : List Char → Bool
  | [] => true
  | '_' :: rest =>
    match rest with
    | [] => false
    | c :: rest2 => c.isDigit && validIntTokAux rest2
  | c :: rest => c.isDigit && validIntTokAux rest

/-- Whether an unsigned token is a valid Python decimal integer literal:
at least one digit, underscores only between digits. -/
def validIntTok : List Char → Bool
  | [] => false
  | c :: rest => c.isDigit && validIntTokAux rest

/-- Python `int(s)` on an already-stripped token: optional sign, then ASCII
digits with single underscore separators between digits; the value ignores
the underscores.  Returns `none` where Python raises `ValueError`.
Non-ASCII decimal digits, which Python's `int()` also accepts, are not
modelled: theorems that assert a parse *failure* therefore restrict the
token to ASCII characters. -/
def pyInt? (l : List Char) : Option Int :=
  match l with
  | '-' :: rest =>
    if validIntTok rest then some (-(digitsVal (rest.filter (fun c => c != '_')) : Int))
    else none
  | '+' :: rest =>
    if validIntTok rest then some ((digitsVal (rest.filter (fun c => c != '_')) : Int))
    else none
  | _ =>
    if validIntTok l then some ((digitsVal (l.filter (fun c => c != '_')) : Int))
    else none

/-! ### `parse_size` (main.py lines 25-44) -/

/-- The two `ValueError`s `parse_size` can raise. -/
inductive SizeError where
  | invalidFormat (s : String)
  | unknownUnit (u : String)
deriving DecidableEq, Repr

/-- `UNIT_MAP` from main.py lines 25-30. -/
def UNIT_MAP : List (String × Nat) :=
  [("B", 1), ("KBYTE", 1024), ("MBYTE", 1024 ^ 2), ("GBYTE", 1024 ^ 3)]

/-- The strings the optional unit group `([KMGB]?BYTE|B)` of the regex
`^(\d+)([KMGB]?BYTE|B)?$` can match (the unit alternatives contain no
digit, so the maximal digit prefix taken by `\d+` is never backtracked). -/
def unitAlternatives : List (List Char) :=
  ["BYTE".data, "KBYTE".data, "MBYTE".data, "GBYTE".data, "BBYTE".data, "B".data]

/-- `parse_size` from main.py lines 32-44 (the `s is None` guard is
untranslatable: a Lean `String` is never `None`). -/
def parse_size (s : String) : Except SizeError Nat :=
  let t := removeSpaces (toUpperL (pyStrip s.data))
  let ds := t.takeWhile Char.isDigit
  let rest := t.dropWhile Char.isDigit
  if ds.isEmpty then .error (.invalidFormat ⟨t⟩)
  else if !(rest.isEmpty || unitAlternatives.contains rest) then .error (.invalidFormat ⟨t⟩)
  else
    let unit : String := if rest.isEmpty then "B" else ⟨rest⟩
    match UNIT_MAP.lookup unit with
    | some m => .ok (digitsVal ds * m)
    | none => .error (.unknownUnit unit)

/-- `is_power_of_two` from main.py lines 46-47. -/
def is_power_of_two (n : Nat) : Bool := decide (0 < n) && (n &&& (n - 1) == 0)

/-! ### Binary strings

Python renders binary via `bin(n)[2:]` (most significant bit first,
`"0"` for zero) and reads them back with `int(s, 2)`.  Binary strings are
modelled as `List Bool`, msb first. -/

/-- Auxiliary for `pyBin`, with explicit fuel to stay structurally
recursive; `natToBinAux fuel n` is the binary expansion of `n` (msb first,
empty for `0`) provided `n ≤ fuel`. -/
def natToBinAux : Nat → Nat → List Bool
  | 0, _ => []
  | _ + 1, 0 => []
  | fuel + 1, n + 1 => natToBinAux fuel ((n + 1) / 2) ++ [(n + 1) % 2 == 1]

/-- Python `bin(n)[2:]` for `n ≥ 0`. -/
def pyBin (n : Nat) : List Bool := if n = 0 then [false] else natToBinAux n n

/-- Python `s.zfill(width)` on a binary string: left-pad with zeros up to
`width`; longer strings are returned unchanged. -/
def zfill (width : Nat) (l : List Bool) : List Bool :=
  List.replicate (width - l.length) false ++ l

/-- Python `int(s, 2)` on a nonempty binary string. -/
def bitsToNat (l : List Bool) : Nat := l.foldl (fun a b => 2 * a + cond b 1 0) 0

/-- Python slice `l[:i]` (an `int` index may be negative). -/
def pySliceTo (l : List α) (i : Int) : List α :=
  if 0 ≤ i then l.take i.toNat else l.take (l.length - i.natAbs)

/-- Python slice `l[i:]` (an `int` index may be negative). -/
def pySliceFrom (l : List α) (i : Int) : List α :=
  if 0 ≤ i then l.drop i.toNat else l.drop (l.length - i.natAbs)

/-! ### Hexadecimal strings -/

/-- Value of one hexadecimal digit character (`[0-9A-Fa-f]`), if any;
written on code points: digits occupy 48-57, `A`-`F` 65-70, `a`-`f`
97-102. -/
def hexDigit? (c : Char) : Option Nat :=
  let n := c.toNat
  if 48 ≤ n ∧ n ≤ 57 then some (n - 48)
  else if 97 ≤ n ∧ n ≤ 102 then some (n - 87)
  else if 65 ≤ n ∧ n ≤ 70 then some (n - 55)
  else none

/-- Value of a nonempty string of hexadecimal digits, if well-formed. -/
def hexVal? (l : List Char) : Option Nat :=
  if l.isEmpty then none
  else l.foldl (fun a c => a.bind fun v => (hexDigit? c).map fun d => 16 * v + d) (some 0)

/-- Python `int(s, 16)` on an already-stripped token: an optional `0x`/`0X`
marker followed by at least one hex digit.  (Signs and underscore
separators, which Python also accepts, are not modelled.)  Returns `none`
where Python raises `ValueError`. -/
def pyIntHex? (l : List Char) : Option Nat :=
  match l with
  | '0' :: c :: rest => if c == 'x' || c == 'X' then hexVal? rest else hexVal? l
  | _ => hexVal? l

/-- Digit character for `hex(n).upper()` rendering, on code points:
`0`-`9` are 48-57 and `A`-`F` are 65-70. -/
def hexDigitChar (d : Nat) : Char :=
  Char.ofNat (if d < 10 then 48 + d else 55 + d)

/-- Auxiliary for `pyHexUpper`, fuel-driven like `natToBinAux`. -/
def natToHexAux : Nat → Nat → List Char
  | 0, _ => []
  | _ + 1, 0 => []
  | fuel + 1, n + 1 => natToHexAux fuel ((n + 1) / 16) ++ [hexDigitChar ((n + 1) % 16)]

/-- Python `hex(n)[2:].upper()` for `n ≥ 0`. -/
def pyHexUpper (n : Nat) : String := ⟨if n = 0 then ['0'] else natToHexAux n n⟩

/-! ### `compute_bits` (main.py lines 118-134) -/

/-- Fuel-driven floor of `log2 n` (structurally recursive so that the
kernel can evaluate it; correct whenever `n ≤ fuel`). -/
def flog2Aux : Nat → Nat → Nat
  | 0, _ => 0
  | fuel + 1, n => if 2 ≤ n then flog2Aux fuel (n / 2) + 1 else 0

/-- Floor of `log2 n` (for `n ≥ 1`). -/
def flog2 (n : Nat) : Nat := flog2Aux n n

/-- The exact integer nearest to `log2 n` for `n ≥ 1` (`log2 n ≥ f + 1/2`
iff `n^2 ≥ 2^(2f+1)`; a tie is impossible since `2^(2f+1)` is not a
perfect square).  The source computes `int(round(math.log2 mem_virt))`
through doubles, which agrees with this exact value at powers of two —
the only inputs the theorems below use it at — but may differ for large
non-powers. -/
def log2_round (n : Nat) : Nat :=
  let f := flog2 n
  if 2 ^ (2 * f + 1) ≤ n * n then f + 1 else f

/-- The exact value of `ceil(log2 n)` for `n ≥ 1`.  The source computes
`int(math.ceil(math.log2 num_frames))` through doubles, which agrees with
this exact value at powers of two — the only inputs the theorems below
use it at — but can fall below it for large non-powers (around `2^49 + 1`
and beyond the double rounds the logarithm down to the integer). -/
def log2_ceil (n : Nat) : Nat :=
  let f := flog2 n
  if 2 ^ f = n then f else f + 1

/-- The dict returned by `compute_bits`.  `page_number_bits` is a Python
`int` that can go negative when the page is larger than the virtual space,
hence `Int`. -/
structure Computed where
  offset_bits : Nat
  virtual_address_bits : Nat
  page_number_bits : Int
  num_pages_virtual : Nat
  num_frames : Nat
  frame_bits : Nat
deriving DecidableEq, Repr

/-- The `ValueError`s `compute_bits` can raise: the explicit
power-of-two check, and the `math.log2` domain error on `mem_virt = 0`. -/
inductive BitsError where
  | pageSizeNotPow2
  | log2Domain
deriving DecidableEq, Repr

/-- `compute_bits` from main.py lines 118-134. -/
def compute_bits (mem_virt mem_phys page_size : Nat) : Except BitsError Computed :=
  if !is_power_of_two page_size then .error .pageSizeNotPow2
  else if mem_virt = 0 then .error .log2Domain
  else
    let offset_bits := log2_round page_size
    let virtual_address_bits := log2_round mem_virt
    let page_number_bits : Int := (virtual_address_bits : Int) - (offset_bits : Int)
    let num_pages_virtual := mem_virt / page_size
    let num_frames := mem_phys / page_size
    let frame_bits := if 1 < num_frames then log2_ceil num_frames else 1
    .ok { offset_bits, virtual_address_bits, page_number_bits,
          num_pages_virtual, num_frames, frame_bits }

/-! ### Dicts

Python dicts are modelled as association lists: assignment overwrites in
place (preserving insertion order, as Python does) or appends. -/

/-- Python `d.get(k, None)`: `none` when the key is absent. -/
def dictGet [BEq κ] (l : List (κ × α)) (k : κ) : Option α :=
  (l.find? (fun p => p.1 == k)).map (·.2)

/-- Python `d[k] = v`. -/
def dictInsert [BEq κ] (l : List (κ × α)) (k : κ) (v : α) : List (κ × α) :=
  if (l.find? (fun p => p.1 == k)).isSome
  then l.map (fun p => if p.1 == k then (k, v) else p)
  else l ++ [(k, v)]

/-! ### `translate_one` (main.py lines 139-204) -/

/-- `normalize_hex` from main.py lines 139-143. -/
def normalize_hex (h : String) : String :=
  match pyStrip h.data with
  | '0' :: c :: rest => if c == 'x' || c == 'X' then ⟨rest⟩ else ⟨'0' :: c :: rest⟩
  | l => ⟨l⟩

/-- `hex_to_bin_fixed` from main.py lines 145-148; `none` when
`int(hex_str, 16)` raises. -/
def hex_to_bin_fixed (hex_str : String) (width : Nat) : Option (List Bool) :=
  (pyIntHex? hex_str.data).map fun val => zfill width (pyBin val)

/-- The fixed-width binary rendering of the parsed virtual address
(`vbin` in `translate_one`). -/
def vbinOf (val : Nat) (c : Computed) : List Bool :=
  zfill c.virtual_address_bits (pyBin val)

/-- `vbin[:page_bits]` from `translate_one` line 163. -/
def pageBinOf (val : Nat) (c : Computed) : List Bool :=
  pySliceTo (vbinOf val c) c.page_number_bits

/-- `vbin[page_bits:]` from `translate_one` line 164. -/
def offsetBinOf (val : Nat) (c : Computed) : List Bool :=
  pySliceFrom (vbinOf val c) c.page_number_bits

/-- The page-fault dict returned at main.py lines 172-180. -/
structure FaultRecord where
  virtual_hex : String
  virtual_bin : List Bool
  page_index : Nat
  page_bin : List Bool
  offset_bin : List Bool
  message : String
deriving DecidableEq, Repr

/-- The success dict returned at main.py lines 193-204. -/
structure SuccessRecord where
  virtual_hex : String
  virtual_bin : List Bool
  page_index : Nat
  page_bin : List Bool
  offset_bin : List Bool
  frame : Nat
  frame_bin : List Bool
  physical_bin : List Bool
  physical_hex : String
deriving DecidableEq, Repr

/-- Outcome of `translate_one`: the raised `ValueError`s (`malformed` for
line 157, `emptyField` for `int("", 2)` at line 165 when the page field is
empty), the two `{'error': ...}` dicts, the page-fault dict and the
success dict.  `negFrame` abstracts what line 190 does to a negative
mapped frame: `bin(frame)[2:]` then yields a string containing `b`, and
`int(..., 2)` usually raises — though when the padded string happens to
begin exactly `0b` Python parses it as a prefixed binary literal and
returns a bogus success.  No verified claim depends on this branch (every
claim's hypotheses force a non-negative frame), so the erratic behaviour
is collapsed into this one constructor. -/
inductive TResult where
  | malformed (raw : String)
  | emptyField
  | negFrame (frame : Int)
  | exceedsVirtual (page_index : Nat)
  | frameExceeds (frame : Int) (num_frames : Nat)
  | pageFault (pf : FaultRecord)
  | success (r : SuccessRecord)
deriving DecidableEq, Repr

/-- `translate_one` from main.py lines 150-204.  The page table is the
dense table built by `upload` (keys are the page indices `0..n-1`, values
are `none` for unmapped and `some frame` otherwise; `frame` is a Python
`int`, possibly negative). -/
def translate_one (virtual_hex : String) (computed : Computed)
    (page_table : List (Nat × Option Int)) : TResult :=
  let vhex := normalize_hex virtual_hex
  match pyIntHex? vhex.data with
  | none => .malformed virtual_hex
  | some val =>
    let vbin := vbinOf val computed
    let page_bin := pageBinOf val computed
    let offset_bin := offsetBinOf val computed
    if page_bin = [] then .emptyField
    else
      let page_index := bitsToNat page_bin
      if computed.num_pages_virtual ≤ page_index then .exceedsVirtual page_index
      else
        match (dictGet page_table page_index).join with
        | none =>
          .pageFault { virtual_hex := "0x" ++ ⟨toUpperL vhex.data⟩,
                       virtual_bin := vbin, page_index, page_bin, offset_bin,
                       message := "Page fault: entrada inválida (índice "
                                  ++ toString page_index ++ ")" }
        | some frame =>
          if (computed.num_frames : Int) ≤ frame then
            .frameExceeds frame computed.num_frames
          else if frame < 0 then .negFrame frame
          else
            let f := frame.toNat
            let frame_bin := zfill computed.frame_bits (pyBin f)
            let physical_bin := frame_bin ++ offset_bin
            -- pad left to a multiple of 4 before `int(..., 2)`; the padding
            -- does not change the parsed value
            let pad := (4 - physical_bin.length % 4) % 4
            let physical_bin_padded := List.replicate pad false ++ physical_bin
            .success { virtual_hex := "0x" ++ ⟨toUpperL vhex.data⟩,
                       virtual_bin := vbin, page_index, page_bin, offset_bin,
                       frame := f, frame_bin, physical_bin,
                       physical_hex := "0x" ++ pyHexUpper (bitsToNat physical_bin_padded) }

/-- The dense page table built by `upload` (main.py lines 222-225) from the
sparse authored table: one entry per index `0..n-1`, `parsed.get(i, None)`
collapsing "absent" and "explicitly unmapped" to `none`. -/
def densify (sparse : List (Int × Option Int)) (n : Nat) : List (Nat × Option Int) :=
  (List.range n).map fun i => (i, (dictGet sparse (i : Int)).join)

/-! ### `parse_txt` (main.py lines 52-113) -/

/-- The `mode` variable of `parse_txt` (`None`, `"tabla"`, `"dirs"`). -/
inductive Mode where
  | none
  | tabla
  | dirs
deriving DecidableEq, Repr

/-- The accumulating state of `parse_txt`'s line loop: the three scalar
parameters seen so far (raw value strings), the sparse page table, the
virtual address list and the current mode. -/
structure PState where
  params_fis : Option String
  params_virt : Option String
  params_pag : Option String
  page_table : List (Int × Option Int)
  virtual_addrs : List String
  mode : Mode
deriving DecidableEq, Repr

/-- State before the first line. -/
def initState : PState := ⟨none, none, none, [], [], .none⟩

/-- Errors `parse_txt` can raise: the `ValueError` from unpacking
`ln.split(":", 1)` when a parameter line has no colon, the `ValueError`
from `int()` on a non-integer token, the explicit missing-parameter check,
and errors propagated from `parse_size`. -/
inductive PError where
  | noColon (ln : String)
  | intError (tok : String)
  | missingParam (name : String)
  | sizeError (e : SizeError)
deriving DecidableEq, Repr

/-- Python `s.split(sep)` for a one-character separator: always returns at
least one piece; returns one more piece than there are separators. -/
def pySplitChar (sep : Char) : List Char → List (List Char)
  | [] => [[]]
  | c :: rest =>
    match pySplitChar sep rest with
    | [] => [[]]
    | h :: t => if c == sep then [] :: h :: t else (c :: h) :: t

/-- Python `s.split(":", 1)` restricted to the unpacking `_, val = ...`:
`some (before, after)` split at the first colon, `none` (unpack
`ValueError`) when there is no colon. -/
def pySplitColon1 : List Char → Option (List Char × List Char)
  | [] => none
  | c :: rest =>
    if c == ':' then some ([], rest)
    else (pySplitColon1 rest).map fun p => (c :: p.1, p.2)

/-- `ln.lower().startswith(key)` for an already lowercase `key`. -/
def lowStartsWith (ln key : String) : Bool := key.data.isPrefixOf (toLowerL ln.data)

/-- Whether a line matches one of the eight recognised parameter / section
markers checked before the mode-dependent fallthrough. -/
def isKeyLine (ln : String) : Bool :=
  lowStartsWith ln "memoria_fisica" || lowStartsWith ln "memoria_virtual" ||
    lowStartsWith ln "tamanio_pagina" || lowStartsWith ln "tamaño_pagina" ||
    lowStartsWith ln "tabla_paginas:" || lowStartsWith ln "tabla_de_paginas:" ||
    lowStartsWith ln "direcciones_virtuales:" || lowStartsWith ln "direcciones:"

/-- The frame field of a table line: `frame = tok.upper()`, then `None`
for the sentinel `'X'`/`''`, else `int(frame)` (whose `ValueError` is
`none` here). -/
def parseFrameTok (tok : List Char) : Option (Option Int) :=
  let f := toUpperL tok
  if f == ['X'] || f == [] then some .none
  else (pyInt? f).map some

/-- Hexadecimal digit test. -/
def isHexDigitChar (c : Char) : Bool := (hexDigit? c).isSome

/-- `re.match(r'^(0x)?[0-9A-Fa-f]+$', ln)` from main.py line 97: either a
literal lowercase `0x` followed by at least one hex digit, or (on
backtracking to the empty optional group) a nonempty all-hex-digit string. -/
def matchesHexLine (l : List Char) : Bool :=
  (match l with
   | '0' :: 'x' :: rest => !rest.isEmpty && rest.all isHexDigitChar
   | _ => false)
  || (!l.isEmpty && l.all isHexDigitChar)

/-- One iteration of the `for ln in lines` loop of `parse_txt`
(main.py lines 60-98). -/
def parseLine (st : PState) (ln : String) : Except PError PState :=
  if lowStartsWith ln "memoria_fisica" then
    match pySplitColon1 ln.data with
    | .none => .error (.noColon ln)
    | some p => .ok { st with params_fis := some ⟨pyStrip p.2⟩ }
  else if lowStartsWith ln "memoria_virtual" then
    match pySplitColon1 ln.data with
    | .none => .error (.noColon ln)
    | some p => .ok { st with params_virt := some ⟨pyStrip p.2⟩ }
  else if lowStartsWith ln "tamanio_pagina" || lowStartsWith ln "tamaño_pagina" then
    match pySplitColon1 ln.data with
    | .none => .error (.noColon ln)
    | some p => .ok { st with params_pag := some ⟨pyStrip p.2⟩ }
  else if lowStartsWith ln "tabla_paginas:" || lowStartsWith ln "tabla_de_paginas:" then
    .ok { st with mode := .tabla }
  else if lowStartsWith ln "direcciones_virtuales:" || lowStartsWith ln "direcciones:" then
    .ok { st with mode := .dirs }
  else
    -- in the two table-entry branches below, `parts` in the source is
    -- `[p.strip() for p in ln.split(",")]`, inlined here as
    -- `(pySplitChar ',' ln.data).map pyStrip`
    match st.mode with
    | .tabla =>
      if 2 ≤ ((pySplitChar ',' ln.data).map pyStrip).length then
        match pyInt? (((pySplitChar ',' ln.data).map pyStrip).getD 0 []) with
        | .none => .error (.intError ⟨((pySplitChar ',' ln.data).map pyStrip).getD 0 []⟩)
        | some idx =>
          match parseFrameTok (((pySplitChar ',' ln.data).map pyStrip).getD 1 []) with
          | .none => .error (.intError ⟨toUpperL (((pySplitChar ',' ln.data).map pyStrip).getD 1 [])⟩)
          | some fr => .ok { st with page_table := dictInsert st.page_table idx fr }
      else .ok st
    | .dirs => .ok { st with virtual_addrs := st.virtual_addrs ++ [ln] }
    | .none =>
      if ln.data.contains ',' then
        if pyIsDigit (((pySplitChar ',' ln.data).map pyStrip).getD 0 []) then
          match parseFrameTok (((pySplitChar ',' ln.data).map pyStrip).getD 1 []) with
          | .none => .error (.intError ⟨toUpperL (((pySplitChar ',' ln.data).map pyStrip).getD 1 [])⟩)
          | some fr =>
            .ok { st with page_table := (dictInsert st.page_table
                    (digitsVal (((pySplitChar ',' ln.data).map pyStrip).getD 0 []) : Int) fr) }
        else .ok st
      else if matchesHexLine ln.data then
        .ok { st with virtual_addrs := st.virtual_addrs ++ [ln] }
      else .ok st

/-- The line preprocessing of `parse_txt` (main.py line 54): split into
lines, strip each, drop blank lines and `#` comments.  (`splitlines` is
modelled as splitting on `'\n'`; a stray `'\r'` of a CRLF file is removed
by the strip.) -/
def prepLines (content : String) : List String :=
  ((pySplitChar '\n' content.data).map fun l => (⟨pyStrip l⟩ : String)).filter
    fun l => !l.data.isEmpty && !("#".data.isPrefixOf l.data)

/-- The dict returned by `parse_txt` (main.py lines 107-113). -/
structure ParsedConfig where
  memoria_fisica_bytes : Nat
  memoria_virtual_bytes : Nat
  tamanio_pagina_bytes : Nat
  page_table : List (Int × Option Int)
  virtual_addrs : List String
deriving DecidableEq, Repr

/-- `parse_txt` from main.py lines 52-113: run the line loop, check the
three mandatory parameters (in the source's loop order), then convert the
three sizes through `parse_size` (in the source's order). -/
def parse_txt (content : String) : Except PError ParsedConfig := do
  let st ← (prepLines content).foldlM parseLine initState
  let fis ← match st.params_fis with
    | some v => pure v
    | .none => throw (.missingParam "memoria_fisica")
  let virt ← match st.params_virt with
    | some v => pure v
    | .none => throw (.missingParam "memoria_virtual")
  let pag ← match st.params_pag with
    | some v => pure v
    | .none => throw (.missingParam "tamanio_pagina")
  let mem_phys ← (parse_size fis).mapError .sizeError
  let mem_virt ← (parse_size virt).mapError .sizeError
  let page_size ← (parse_size pag).mapError .sizeError
  return ⟨mem_phys, mem_virt, page_size, st.page_table, st.virtual_addrs⟩

/-! ### Result classifiers (used to state claims) -/

/-- Whether a translation outcome is the success dict. -/
def isSuccessB : TResult → Bool
  | .success _ => true
  | _ => false

/-- Whether a translation outcome is the page-fault dict. -/
def isPageFaultB : TResult → Bool
  | .pageFault _ => true
  | _ => false

/-- The `physical_hex` field of a success outcome. -/
def resultPhysHex : TResult → Option String
  | .success r => some r.physical_hex
  | _ => none

/-! ### Arithmetic facts about binary strings -/

theorem foldlBits_eq (a : Nat) (l : List Bool) :
    l.foldl (fun x b => 2 * x + cond b 1 0) a = a * 2 ^ l.length + bitsToNat l := by
  induction l generalizing a with
  | nil => simp [bitsToNat]
  | cons b t ih =>
    show List.foldl _ (2 * a + cond b 1 0) t = _
    rw [ih (2 * a + cond b 1 0)]
    have hb : bitsToNat (b :: t) = (cond b 1 0) * 2 ^ t.length + bitsToNat t := by
      show List.foldl _ (2 * 0 + cond b 1 0) t = _
      rw [ih (2 * 0 + cond b 1 0)]; ring_nf
    rw [hb]
    simp [List.length_cons, pow_succ]; ring

theorem bitsToNat_append (l₁ l₂ : List Bool) :
    bitsToNat (l₁ ++ l₂) = bitsToNat l₁ * 2 ^ l₂.length + bitsToNat l₂ := by
  show List.foldl _ 0 (l₁ ++ l₂) = _
  rw [List.foldl_append]
  exact foldlBits_eq _ _

theorem bitsToNat_lt (l : List Bool) : bitsToNat l < 2 ^ l.length := by
  induction l with
  | nil => simp [bitsToNat]
  | cons b t ih =>
    have : bitsToNat (b :: t) = (cond b 1 0) * 2 ^ t.length + bitsToNat t := by
      have := bitsToNat_append [b] t
      simpa [bitsToNat] using this
    rw [this]
    have hc : cond b 1 0 ≤ 1 := by cases b <;> simp
    calc (cond b 1 0) * 2 ^ t.length + bitsToNat t
        ≤ 1 * 2 ^ t.length + bitsToNat t := by
          exact Nat.add_le_add_right (Nat.mul_le_mul_right _ hc) _
      _ < 2 ^ t.length + 2 ^ t.length := by omega
      _ = 2 ^ (t.length + 1) := by ring
      _ = 2 ^ (b :: t).length := by simp

theorem bitsToNat_cons (b : Bool) (t : List Bool) :
    bitsToNat (b :: t) = (cond b 1 0) * 2 ^ t.length + bitsToNat t := by
  have h := bitsToNat_append [b] t
  simpa [bitsToNat] using h

theorem bitsToNat_replicate_false (k : Nat) : bitsToNat (List.replicate k false) = 0 := by
  induction k with
  | zero => simp [bitsToNat]
  | succ m ih => rw [List.replicate_succ, bitsToNat_cons, ih]; simp

theorem bitsToNat_zfill (w : Nat) (l : List Bool) : bitsToNat (zfill w l) = bitsToNat l := by
  unfold zfill
  rw [bitsToNat_append, bitsToNat_replicate_false]
  ring

theorem zfill_length (w : Nat) (l : List Bool) : (zfill w l).length = max w l.length := by
  unfold zfill
  simp [List.length_replicate]
  omega

theorem natToBinAux_val : ∀ fuel n, n ≤ fuel → bitsToNat (natToBinAux fuel n) = n := by
  intro fuel
  induction fuel with
  | zero => intro n h; interval_cases n; simp [natToBinAux, bitsToNat]
  | succ f ih =>
    intro n h
    match n with
    | 0 => simp [natToBinAux, bitsToNat]
    | m + 1 =>
      show bitsToNat (natToBinAux f ((m + 1) / 2) ++ [(m + 1) % 2 == 1]) = m + 1
      rw [bitsToNat_append, ih ((m + 1) / 2) (by omega)]
      have hm : (m + 1) % 2 = 0 ∨ (m + 1) % 2 = 1 := Nat.mod_two_eq_zero_or_one _
      rcases hm with hm | hm <;> simp [hm, bitsToNat] <;> omega

theorem natToBinAux_len : ∀ fuel n k, n < 2 ^ k → (natToBinAux fuel n).length ≤ k := by
  intro fuel
  induction fuel with
  | zero => intro n k _; simp [natToBinAux]
  | succ f ih =>
    intro n k hn
    match n with
    | 0 => simp [natToBinAux]
    | m + 1 =>
      show (natToBinAux f ((m + 1) / 2) ++ [(m + 1) % 2 == 1]).length ≤ k
      have hk : 1 ≤ k := by
        by_contra hk
        have : k = 0 := by omega
        subst this; simp at hn
      have hdiv : (m + 1) / 2 < 2 ^ (k - 1) := by
        rw [Nat.div_lt_iff_lt_mul (by norm_num)]
        have : 2 ^ (k - 1) * 2 = 2 ^ k := by
          rw [← pow_succ]; congr 1; omega
        omega
      have := ih ((m + 1) / 2) (k - 1) hdiv
      simp [List.length_append]
      omega

theorem pyBin_val (n : Nat) : bitsToNat (pyBin n) = n := by
  unfold pyBin
  split
  · simp [bitsToNat]; omega
  · exact natToBinAux_val n n le_rfl

theorem pyBin_len_le (n w : Nat) (h : n < 2 ^ w) (hw : 1 ≤ w) : (pyBin n).length ≤ w := by
  unfold pyBin
  split
  · simpa using hw
  · exact natToBinAux_len n n w h

theorem zfill_pyBin_length (w n : Nat) (h : n < 2 ^ w) (hw : 1 ≤ w) :
    (zfill w (pyBin n)).length = w := by
  rw [zfill_length]
  exact Nat.max_eq_left (pyBin_len_le n w h hw)

theorem bitsToNat_take_drop (l : List Bool) (p : Nat) (_hp : p ≤ l.length) :
    bitsToNat (l.take p) = bitsToNat l / 2 ^ (l.length - p) ∧
    bitsToNat (l.drop p) = bitsToNat l % 2 ^ (l.length - p) := by
  have hlen : (l.drop p).length = l.length - p := List.length_drop p l
  have hsplit : bitsToNat l = bitsToNat (l.take p) * 2 ^ (l.length - p) + bitsToNat (l.drop p) := by
    conv_lhs => rw [← List.take_append_drop p l]
    rw [bitsToNat_append, hlen]
  have hdlt : bitsToNat (l.drop p) < 2 ^ (l.length - p) := by
    have := bitsToNat_lt (l.drop p)
    rwa [hlen] at this
  have hpos : 0 < 2 ^ (l.length - p) := Nat.pos_pow_of_pos _ (by norm_num)
  constructor
  · rw [hsplit, mul_comm, Nat.mul_add_div hpos, Nat.div_eq_of_lt hdlt]; omega
  · rw [hsplit, mul_comm, Nat.mul_add_mod, Nat.mod_eq_of_lt hdlt]

/-! ### Arithmetic facts about the logarithm helpers -/

theorem flog2Aux_spec : ∀ fuel n, 1 ≤ n → n ≤ fuel →
    2 ^ flog2Aux fuel n ≤ n ∧ n < 2 ^ (flog2Aux fuel n + 1) := by
  intro fuel
  induction fuel with
  | zero => intro n h1 h2; omega
  | succ f ih =>
    intro n h1 h2
    by_cases h : 2 ≤ n
    · have hrec := ih (n / 2) (by omega) (by omega)
      simp only [flog2Aux, if_pos h]
      set r := flog2Aux f (n / 2) with hr
      have e1 : 2 ^ (r + 1) = 2 * 2 ^ r := by ring
      have e2 : 2 ^ (r + 1 + 1) = 4 * 2 ^ r := by ring
      omega
    · have hn1 : n = 1 := by omega
      subst hn1
      simp [flog2Aux]

theorem flog2_spec (n : Nat) (h : 1 ≤ n) :
    2 ^ flog2 n ≤ n ∧ n < 2 ^ (flog2 n + 1) := flog2Aux_spec n n h le_rfl

theorem flog2_pow (k : Nat) : flog2 (2 ^ k) = k := by
  have h := flog2_spec (2 ^ k) Nat.one_le_two_pow
  have h1 : flog2 (2 ^ k) ≤ k := (Nat.pow_le_pow_iff_right (by norm_num)).mp h.1
  have h2 : k < flog2 (2 ^ k) + 1 := (Nat.pow_lt_pow_iff_right (by norm_num)).mp h.2
  omega

theorem log2_round_pow (k : Nat) : log2_round (2 ^ k) = k := by
  unfold log2_round
  rw [flog2_pow]
  have : ¬(2 ^ (2 * k + 1) ≤ 2 ^ k * 2 ^ k) := by
    rw [← pow_add]
    intro hc
    have := (Nat.pow_le_pow_iff_right (a := 2) (by norm_num)).mp hc
    omega
  simp [this]

theorem log2_ceil_spec (n : Nat) (h2 : 2 ≤ n) :
    n ≤ 2 ^ log2_ceil n ∧ 2 ^ (log2_ceil n - 1) < n := by
  have h := flog2_spec n (by omega)
  unfold log2_ceil
  by_cases he : 2 ^ flog2 n = n
  · have hf : 1 ≤ flog2 n := by
      by_contra hf
      have : flog2 n = 0 := by omega
      rw [this] at he; omega
    simp only [he, if_pos rfl]
    refine ⟨he.ge, ?_⟩
    calc 2 ^ (flog2 n - 1) < 2 ^ flog2 n :=
          (Nat.pow_lt_pow_iff_right (by norm_num)).mpr (by omega)
      _ = n := he
  · simp only [if_neg he]
    exact ⟨by omega, by simpa using lt_of_le_of_ne h.1 he⟩

theorem pow2_and_pred (k : Nat) : 2 ^ k &&& (2 ^ k - 1) = 0 := by
  apply Nat.eq_of_testBit_eq
  intro i
  rw [Nat.testBit_land, Nat.zero_testBit]
  by_cases hik : i = k
  · subst hik
    rw [Nat.testBit_two_pow_sub_one]
    simp
  · rw [Nat.testBit_two_pow_of_ne (fun h => hik h.symm)]
    simp

theorem testBit_of_between {n f : Nat} (h1 : 2 ^ f ≤ n) (h2 : n < 2 ^ (f + 1)) :
    n.testBit f = true := by
  rw [Nat.testBit_to_div_mod]
  have hpos : 0 < 2 ^ f := Nat.pos_pow_of_pos _ (by norm_num)
  have ha : 1 ≤ n / 2 ^ f := (Nat.le_div_iff_mul_le hpos).mpr (by omega)
  have hb : n / 2 ^ f < 2 := by
    rw [Nat.div_lt_iff_lt_mul hpos]
    have : 2 ^ (f + 1) = 2 * 2 ^ f := by ring
    omega
  have : n / 2 ^ f = 1 := by omega
  simp [this]

theorem is_power_of_two_iff (n : Nat) : is_power_of_two n = true ↔ ∃ k, n = 2 ^ k := by
  constructor
  · intro h
    unfold is_power_of_two at h
    rw [Bool.and_eq_true, decide_eq_true_iff, beq_iff_eq] at h
    obtain ⟨hpos, hand⟩ := h
    refine ⟨flog2 n, ?_⟩
    have hs := flog2_spec n hpos
    by_contra hne
    have hlt : 2 ^ flog2 n < n := lt_of_le_of_ne hs.1 (fun h => hne h.symm)
    have ht1 : n.testBit (flog2 n) = true := testBit_of_between hs.1 hs.2
    have ht2 : (n - 1).testBit (flog2 n) = true :=
      testBit_of_between (by omega) (by omega)
    have := Nat.testBit_land n (n - 1) (flog2 n)
    rw [hand, Nat.zero_testBit, ht1, ht2] at this
    simp at this
  · rintro ⟨k, rfl⟩
    unfold is_power_of_two
    rw [Bool.and_eq_true, decide_eq_true_iff, beq_iff_eq]
    exact ⟨Nat.pos_pow_of_pos _ (by norm_num), pow2_and_pred k⟩

/-! ### Characterisation of `compute_bits` -/

theorem compute_bits_pow2 (b a mp : Nat) :
    compute_bits (2 ^ b) mp (2 ^ a) =
      .ok ⟨a, b, (b : Int) - (a : Int), 2 ^ b / 2 ^ a, mp / 2 ^ a,
           if 1 < mp / 2 ^ a then log2_ceil (mp / 2 ^ a) else 1⟩ := by
  have h1 : is_power_of_two (2 ^ a) = true := (is_power_of_two_iff _).mpr ⟨a, rfl⟩
  have h2 : (2 : Nat) ^ b ≠ 0 := (Nat.pos_pow_of_pos _ (by norm_num)).ne'
  unfold compute_bits
  rw [h1]
  simp [h2, log2_round_pow]

theorem compute_bits_fields (mv mp ps : Nat) (c : Computed)
    (h : compute_bits mv mp ps = .ok c) :
    c.num_frames = mp / ps ∧
    c.frame_bits = (if 1 < mp / ps then log2_ceil (mp / ps) else 1) ∧
    c.num_pages_virtual = mv / ps := by
  unfold compute_bits at h
  split at h
  · simp at h
  · split at h
    · simp at h
    · cases h
      exact ⟨rfl, rfl, rfl⟩

/-! ### The address-splitting step of `translate_one` -/

theorem bitsToNat_pad (k : Nat) (l : List Bool) :
    bitsToNat (List.replicate k false ++ l) = bitsToNat l := by
  rw [bitsToNat_append, bitsToNat_replicate_false]
  ring

/-- Under a power-of-two-shaped configuration with at least one
page-number bit, the page/offset split of an in-range address is exactly
division/remainder by the page size. -/
theorem pageBin_spec (c : Computed) (val a : Nat)
    (hpnb : c.page_number_bits = (c.virtual_address_bits : Int) - (a : Int))
    (ha : a < c.virtual_address_bits)
    (hval : val < 2 ^ c.virtual_address_bits) :
    bitsToNat (pageBinOf val c) = val / 2 ^ a ∧
    bitsToNat (offsetBinOf val c) = val % 2 ^ a ∧
    (offsetBinOf val c).length = a ∧
    pageBinOf val c ≠ [] := by
  set w := c.virtual_address_bits with hw
  have hw1 : 1 ≤ w := by omega
  have vlen : (vbinOf val c).length = w := zfill_pyBin_length w val hval hw1
  have vval : bitsToNat (vbinOf val c) = val := by
    unfold vbinOf; rw [bitsToNat_zfill, pyBin_val]
  have htn : ((w : Int) - (a : Int)).toNat = w - a := by omega
  have hnn : (0 : Int) ≤ (w : Int) - (a : Int) := by omega
  have hpb : pageBinOf val c = (vbinOf val c).take (w - a) := by
    unfold pageBinOf pySliceTo
    rw [hpnb, if_pos hnn, htn]
  have hob : offsetBinOf val c = (vbinOf val c).drop (w - a) := by
    unfold offsetBinOf pySliceFrom
    rw [hpnb, if_pos hnn, htn]
  have hsub : w - (w - a) = a := by omega
  have htd := bitsToNat_take_drop (vbinOf val c) (w - a) (by omega)
  rw [vlen, hsub, vval] at htd
  refine ⟨by rw [hpb]; exact htd.1, by rw [hob]; exact htd.2, ?_, ?_⟩
  · rw [hob, List.length_drop, vlen, hsub]
  · rw [hpb]
    intro hemp
    have : ((vbinOf val c).take (w - a)).length = 0 := by rw [hemp]; rfl
    rw [List.length_take, vlen] at this
    omega

/-! ### Path lemmas for `translate_one` -/

theorem translate_one_pageFault (vhex : String) (c : Computed)
    (pt : List (Nat × Option Int)) (val : Nat)
    (hparse : pyIntHex? (normalize_hex vhex).data = some val)
    (hne : pageBinOf val c ≠ [])
    (hlt : bitsToNat (pageBinOf val c) < c.num_pages_virtual)
    (hmap : (dictGet pt (bitsToNat (pageBinOf val c))).join = none) :
    translate_one vhex c pt =
      .pageFault ⟨"0x" ++ ⟨toUpperL (normalize_hex vhex).data⟩, vbinOf val c,
                  bitsToNat (pageBinOf val c), pageBinOf val c, offsetBinOf val c,
                  "Page fault: entrada inválida (índice "
                    ++ toString (bitsToNat (pageBinOf val c)) ++ ")"⟩ := by
  unfold translate_one
  simp only [hparse, hmap, if_neg hne, if_neg (not_le.mpr hlt)]

theorem translate_one_frameExceeds (vhex : String) (c : Computed)
    (pt : List (Nat × Option Int)) (val : Nat) (fr : Int)
    (hparse : pyIntHex? (normalize_hex vhex).data = some val)
    (hne : pageBinOf val c ≠ [])
    (hlt : bitsToNat (pageBinOf val c) < c.num_pages_virtual)
    (hmap : (dictGet pt (bitsToNat (pageBinOf val c))).join = some fr)
    (hge : (c.num_frames : Int) ≤ fr) :
    translate_one vhex c pt = .frameExceeds fr c.num_frames := by
  unfold translate_one
  simp only [hparse, hmap, if_neg hne, if_neg (not_le.mpr hlt), if_pos hge]

theorem translate_one_success (vhex : String) (c : Computed)
    (pt : List (Nat × Option Int)) (val F : Nat)
    (hparse : pyIntHex? (normalize_hex vhex).data = some val)
    (hne : pageBinOf val c ≠ [])
    (hlt : bitsToNat (pageBinOf val c) < c.num_pages_virtual)
    (hmap : (dictGet pt (bitsToNat (pageBinOf val c))).join = some (F : Int))
    (hF : F < c.num_frames) :
    translate_one vhex c pt =
      .success ⟨"0x" ++ ⟨toUpperL (normalize_hex vhex).data⟩, vbinOf val c,
                bitsToNat (pageBinOf val c), pageBinOf val c, offsetBinOf val c,
                F, zfill c.frame_bits (pyBin F),
                zfill c.frame_bits (pyBin F) ++ offsetBinOf val c,
                "0x" ++ pyHexUpper
                  (bitsToNat (zfill c.frame_bits (pyBin F) ++ offsetBinOf val c))⟩ := by
  have hnlt : ¬((c.num_frames : Int) ≤ (F : Int)) := by
    intro h
    have : c.num_frames ≤ F := by exact_mod_cast h
    omega
  have hneg : ¬((F : Int) < 0) := by omega
  have htn : ((F : Int)).toNat = F := by omega
  unfold translate_one
  simp only [hparse, hmap, if_neg hne, if_neg (not_le.mpr hlt), if_neg hnlt, if_neg hneg, htn,
    bitsToNat_pad]

theorem translate_one_ne_exceeds (vhex : String) (c : Computed)
    (pt : List (Nat × Option Int)) (val : Nat)
    (hparse : pyIntHex? (normalize_hex vhex).data = some val)
    (hne : pageBinOf val c ≠ [])
    (hlt : bitsToNat (pageBinOf val c) < c.num_pages_virtual) :
    ∀ q, translate_one vhex c pt ≠ .exceedsVirtual q := by
  intro q
  unfold translate_one
  simp only [hparse, if_neg hne, if_neg (not_le.mpr hlt)]
  rcases hj : (dictGet pt (bitsToNat (pageBinOf val c))).join with _ | fr
  · simp
  · by_cases h1 : (c.num_frames : Int) ≤ fr
    · simp [h1]
    · by_cases h2 : fr < 0 <;> simp [h1, h2]

/-! ### Claim C1 (round-trip translation) -/

/-- C1, counterexample: with `virtualBytes = pageBytes = 4096` (both powers
of two), address `0` is in range (`0 < 2^12`), its page index `0 / 4096 = 0`
is mapped in the dense table to frame `0 < frameCount = 1`, yet translation
does not succeed: `page_number_bits = 0` makes the page field empty and
`int("", 2)` raises a `ValueError`, so the claimed `Success` never
appears. -/
theorem c1_counterexample :
    compute_bits 4096 4096 4096 = .ok ⟨12, 12, 0, 1, 1, 1⟩ ∧
    is_power_of_two 4096 = true ∧
    pyIntHex? (normalize_hex "0").data = some 0 ∧
    (0 : Nat) < 2 ^ 12 ∧
    dictGet (densify [(0, some 0)] 1) (0 / 4096) = some (some (0 : Int)) ∧
    (0 : Nat) < Computed.num_frames ⟨12, 12, 0, 1, 1, 1⟩ ∧
    translate_one "0" ⟨12, 12, 0, 1, 1, 1⟩ (densify [(0, some 0)] 1) = .emptyField ∧
    isSuccessB (translate_one "0" ⟨12, 12, 0, 1, 1, 1⟩ (densify [(0, some 0)] 1)) = false := by
  decide

/-- C1 (amended with `pageBytes < virtualBytes`): for a configuration with
`virtualBytes = 2^b` and `pageBytes = 2^a`, `a < b`, every parsed virtual
address `A < 2^virtualAddressBits` whose page index `A / pageBytes` is
mapped in the dense table to a frame `F < frameCount` translates to a
`Success` whose physical address value is `F * pageBytes + A % pageBytes`
(also rendered as its hex string). -/
theorem c1_roundtrip (a b mem_phys A F : Nat) (c : Computed)
    (pt : List (Nat × Option Int)) (vhex : String)
    (hab : a < b)
    (hc : compute_bits (2 ^ b) mem_phys (2 ^ a) = .ok c)
    (hparse : pyIntHex? (normalize_hex vhex).data = some A)
    (hA : A < 2 ^ c.virtual_address_bits)
    (hmap : dictGet pt (A / 2 ^ a) = some (some (F : Int)))
    (hF : F < c.num_frames) :
    ∃ r, translate_one vhex c pt = .success r ∧
      r.page_index = A / 2 ^ a ∧ r.frame = F ∧
      bitsToNat r.physical_bin = F * 2 ^ a + A % 2 ^ a ∧
      r.physical_hex = "0x" ++ pyHexUpper (F * 2 ^ a + A % 2 ^ a) := by
  rw [compute_bits_pow2] at hc
  have hcc := Except.ok.inj hc
  have hvab : c.virtual_address_bits = b := by rw [← hcc]
  have hpnb : c.page_number_bits = (c.virtual_address_bits : Int) - (a : Int) := by
    rw [← hcc]
  have hnpv : c.num_pages_virtual = 2 ^ b / 2 ^ a := by rw [← hcc]
  have hA' : A < 2 ^ b := by rw [← hvab]; exact hA
  obtain ⟨hpv, hov, hol, hne⟩ :=
    pageBin_spec c A a hpnb (by omega) hA
  have hdiv : 2 ^ b / 2 ^ a * 2 ^ a = 2 ^ b := by
    rw [Nat.pow_div (le_of_lt hab) (by norm_num), ← pow_add]
    congr 1
    omega
  have hlt : bitsToNat (pageBinOf A c) < c.num_pages_virtual := by
    rw [hpv, hnpv]
    rw [Nat.div_lt_iff_lt_mul (Nat.pos_pow_of_pos _ (by norm_num)), hdiv]
    exact hA'
  have hmap' : (dictGet pt (bitsToNat (pageBinOf A c))).join = some (F : Int) := by
    rw [hpv, hmap]
    rfl
  have hres := translate_one_success vhex c pt A F hparse hne hlt hmap' hF
  refine ⟨_, hres, ?_, rfl, ?_, ?_⟩
  · exact hpv
  · show bitsToNat (zfill c.frame_bits (pyBin F) ++ offsetBinOf A c) = _
    rw [bitsToNat_append, bitsToNat_zfill, pyBin_val, hol, hov]
  · show "0x" ++ pyHexUpper (bitsToNat (zfill c.frame_bits (pyBin F) ++ offsetBinOf A c)) = _
    rw [bitsToNat_append, bitsToNat_zfill, pyBin_val, hol, hov]

/-- C1 witness: physical=16B, virtual=16B page table `{1 ↦ 2}`, page=4B,
address `0x7` → page 1, frame 2, physical `2*4 + 3 = 0xB`. -/
theorem c1_roundtrip_witness :
    ∃ r, translate_one "7" ⟨2, 4, 2, 4, 4, 2⟩ (densify [(1, some 2)] 4) = .success r ∧
      r.page_index = 7 / 2 ^ 2 ∧ r.frame = 2 ∧
      bitsToNat r.physical_bin = 2 * 2 ^ 2 + 7 % 2 ^ 2 ∧
      r.physical_hex = "0x" ++ pyHexUpper (2 * 2 ^ 2 + 7 % 2 ^ 2) :=
  c1_roundtrip 2 4 16 7 2 ⟨2, 4, 2, 4, 4, 2⟩ (densify [(1, some 2)] 4) "7"
    (by decide) (by decide) (by decide) (by decide) (by decide) (by decide)

/-! ### Claim C2 (no out-of-range rejection: code bug) -/

/-- C2, failing input: config physical=16KByte, virtual=64KByte,
page=4KByte (`virtualAddressBits = 16`), dense table mapping page 8 to
frame 2.  The address `0x10000 = 2^16` is *not* rejected: its 17-bit
binary string slips an extra bit into the offset field, page index 8 is in
range, and translation returns a `Success` with physical hex `0x4000` —
contradicting the specified `MalformedInput` rejection of any address
`≥ 2^virtualAddressBits`.  The last valid address `0xFFFF` is processed
normally (here a page fault on unmapped page 15, not an out-of-range
rejection). -/
theorem c2_out_of_range_accepted :
    compute_bits 65536 16384 4096 = .ok ⟨12, 16, 4, 16, 4, 2⟩ ∧
    (65536 : Nat) = 2 ^ 16 ∧
    pyIntHex? (normalize_hex "0x10000").data = some 65536 ∧
    isSuccessB (translate_one "0x10000" ⟨12, 16, 4, 16, 4, 2⟩
      (densify [(8, some 2)] 16)) = true ∧
    resultPhysHex (translate_one "0x10000" ⟨12, 16, 4, 16, 4, 2⟩
      (densify [(8, some 2)] 16)) = some "0x4000" ∧
    isSuccessB (translate_one "0xFFFF" ⟨12, 16, 4, 16, 4, 2⟩
      (densify [(8, some 2)] 16)) = false ∧
    isPageFaultB (translate_one "0xFFFF" ⟨12, 16, 4, 16, 4, 2⟩
      (densify [(8, some 2)] 16)) = true := by
  decide

/-! ### Claim C3 (frameBits policy) -/

/-- C3, counterexample: virtual=16B, physical=4B, page=4B gives
`frameCount = 1 ≤ 1` but `frame_bits = 1`, not the claimed `0` (the code's
`else` branch yields `1`). -/
theorem c3_counterexample :
    compute_bits 16 4 4 = .ok ⟨2, 4, 2, 4, 1, 1⟩ ∧
    Computed.num_frames ⟨2, 4, 2, 4, 1, 1⟩ ≤ 1 ∧
    Computed.frame_bits ⟨2, 4, 2, 4, 1, 1⟩ ≠ 0 := by
  decide

theorem log2_ceil_pow (k : Nat) : log2_ceil (2 ^ k) = k := by
  unfold log2_ceil
  rw [flog2_pow]
  simp

/-- C3 (amended: the small-frame-count value is `1`, not `0`, and the
exact-arithmetic clause is stated for power-of-two frame counts — the
shape every configuration with power-of-two physical and page sizes
produces): every configuration accepted by `compute_bits` has
`frame_bits = 1` when `frameCount ≤ 1`, and `frame_bits = k =
ceil(log2 frameCount)` when `frameCount = 2^k` with `k ≥ 1`.  For
`frameCount > 1` not a power of two the source computes
`int(math.ceil(math.log2 num_frames))` through double precision, which
can fall below the exact ceiling (e.g. around `2^49 + 1`), so no exact
integer statement is made there. -/
theorem c3_frame_bits (mv mp ps : Nat) (c : Computed)
    (h : compute_bits mv mp ps = .ok c) :
    (c.num_frames ≤ 1 → c.frame_bits = 1) ∧
    (∀ k, 1 ≤ k → c.num_frames = 2 ^ k → c.frame_bits = k) := by
  obtain ⟨hnf, hfb, -⟩ := compute_bits_fields mv mp ps c h
  constructor
  · intro hle
    rw [hnf] at hle
    rw [hfb, if_neg (by omega)]
  · intro k hk hnfk
    rw [hnf] at hnfk
    have h21 : (2 : Nat) ≤ 2 ^ k := by
      have h0 : (2 : Nat) ^ 1 ≤ 2 ^ k := Nat.pow_le_pow_right (by norm_num) hk
      simpa using h0
    rw [hfb, if_pos (by omega), hnfk, log2_ceil_pow]

/-! ### Claim C8 (dense page table shape) -/

theorem densify_find? (sparse : List (Int × Option Int)) (n i : Nat) :
    (densify sparse n).find? (fun p => p.1 == i) =
      if i < n then some (i, (dictGet sparse (i : Int)).join) else none := by
  induction n with
  | zero => simp [densify]
  | succ m ih =>
    show ((List.range (m + 1)).map fun j => ((j : Nat), (dictGet sparse (j : Int)).join)).find?
        (fun p => p.1 == i) = _
    rw [List.range_succ, List.map_append, List.find?_append]
    have ih' : ((List.range m).map fun j => ((j : Nat), (dictGet sparse (j : Int)).join)).find?
        (fun p => p.1 == i) = if i < m then some (i, (dictGet sparse (i : Int)).join) else none :=
      ih
    rw [ih']
    by_cases h : i < m
    · rw [if_pos h, if_pos (by omega)]
      rfl
    · rw [if_neg h]
      by_cases h2 : i = m
      · subst h2
        simp [List.find?]
      · rw [if_neg (by omega)]
        have : (m == i) = false := by simp; omega
        simp [List.find?, this]

theorem dictGet_densify (sparse : List (Int × Option Int)) (n i : Nat) :
    dictGet (densify sparse n) i =
      if i < n then some ((dictGet sparse (i : Int)).join) else none := by
  unfold dictGet
  rw [densify_find?]
  by_cases h : i < n
  · rw [if_pos h, if_pos h]
    rfl
  · rw [if_neg h, if_neg h]
    rfl

/-- C8: the dense table built by `upload` has exactly one entry for every
page index in `[0, virtualPageCount)` — carrying the sparse table's value
(the authored frame number, or the unmapped marker either when authored as
the sentinel or when the index was absent, both collapsed by
`Option.join`) — and no entry for any index outside that range. -/
theorem c8_dense_table (sparse : List (Int × Option Int)) (n : Nat) :
    (∀ i, i < n →
        (densify sparse n).countP (fun e => e.1 == i) = 1 ∧
        dictGet (densify sparse n) i = some ((dictGet sparse (i : Int)).join)) ∧
    (∀ e ∈ densify sparse n, e.1 < n) := by
  constructor
  · intro i hi
    constructor
    · show (((List.range n).map fun j => ((j : Nat), (dictGet sparse (j : Int)).join)).countP
          fun e => e.1 == i) = 1
      rw [List.countP_map]
      have : ((fun (e : Nat × Option Int) => e.1 == i) ∘
          fun j => ((j : Nat), (dictGet sparse (j : Int)).join)) = fun j => j == i := rfl
      rw [this]
      have hcount : List.countP (fun j => j == i) (List.range n) = (List.range n).count i := by
        simp [List.count]
      rw [hcount]
      exact List.count_eq_one_of_mem (List.nodup_range n) (List.mem_range.mpr hi)
    · rw [dictGet_densify, if_pos hi]
  · intro e he
    unfold densify at he
    simp only [List.mem_map, List.mem_range] at he
    obtain ⟨j, hj, rfl⟩ := he
    exact hj

/-- C8 witness: sparse table `{0 ↦ 2, 5 ↦ X}` densified to 3 pages: index 1
appears exactly once and is unmapped; the entry `(2, unmapped)` has its
index below 3. -/
theorem c8_dense_table_witness :
    ((densify [(0, some 2), (5, none)] 3).countP (fun e => e.1 == 1) = 1 ∧
      dictGet (densify [(0, some 2), (5, none)] 3) 1 =
        some ((dictGet [(0, some 2), (5, none)] (1 : Int)).join)) ∧
    ((2 : Nat), (none : Option Int)).1 < 3 :=
  ⟨(c8_dense_table [(0, some 2), (5, none)] 3).1 1 (by decide),
   (c8_dense_table [(0, some 2), (5, none)] 3).2 ((2 : Nat), (none : Option Int)) (by decide)⟩

/-! ### Claim C6 (`parse_size` units) -/

theorem data_mk (l : List Char) : (String.mk l).data = l := rfl

theorem digit_char_props (c : Char)
    (h : c ∈ ['9', '8', '7', '6', '5', '4', '3', '2', '1', '0']) :
    Char.isDigit c = true ∧ Char.toUpper c = c ∧
    Char.isWhitespace c = false ∧ (c != ' ') = true := by
  fin_cases h <;> refine ⟨by decide, by decide, by decide, by decide⟩

theorem letter_char_props (c : Char)
    (h : c ∈ ['Z', 'Y', 'X', 'W', 'V', 'U', 'T', 'S', 'R', 'Q', 'P', 'O', 'N', 'M', 'L',
              'K', 'J', 'I', 'H', 'G', 'F', 'E', 'D', 'C', 'B', 'A',
              'z', 'y', 'x', 'w', 'v', 'u', 't', 's', 'r', 'q', 'p', 'o', 'n', 'm', 'l',
              'k', 'j', 'i', 'h', 'g', 'f', 'e', 'd', 'c', 'b', 'a']) :
    Char.isWhitespace c = false ∧ (c != ' ') = true ∧
    Char.isDigit (Char.toUpper c) = false ∧ (Char.toUpper c != ' ') = true := by
  fin_cases h <;> refine ⟨by decide, by decide, by decide, by decide⟩

theorem dropWhile_not {p : α → Bool} (l : List α) (h : ∀ c ∈ l, p c = false) :
    l.dropWhile p = l := by
  cases l with
  | nil => rfl
  | cons a t =>
    rw [List.dropWhile_cons, if_neg]
    simp [h a (List.mem_cons_self a t)]

theorem pyStrip_id (l : List Char) (h : ∀ c ∈ l, Char.isWhitespace c = false) :
    pyStrip l = l := by
  unfold pyStrip
  rw [dropWhile_not l h, dropWhile_not, List.reverse_reverse]
  intro c hc
  exact h c (List.mem_reverse.mp hc)

theorem removeSpaces_id (l : List Char) (h : ∀ c ∈ l, (c != ' ') = true) :
    removeSpaces l = l := List.filter_eq_self.mpr h

theorem mapUpper_id (l : List Char) (h : ∀ c ∈ l, Char.toUpper c = c) :
    toUpperL l = l := by
  induction l with
  | nil => rfl
  | cons a t ih =>
    unfold toUpperL at *
    rw [List.map_cons, h a (List.mem_cons_self a t),
      ih (fun c hc => h c (List.mem_cons_of_mem a hc))]

theorem digits_prefix_split (ds rest : List Char)
    (hds : ∀ c ∈ ds, Char.isDigit c = true)
    (hrest : ∀ c ∈ rest, Char.isDigit c = false) :
    (ds ++ rest).takeWhile Char.isDigit = ds ∧
    (ds ++ rest).dropWhile Char.isDigit = rest := by
  induction ds with
  | nil =>
    constructor
    · cases rest with
      | nil => rfl
      | cons a t =>
        simp only [List.nil_append, List.takeWhile_cons]
        rw [if_neg]
        simp [hrest a (List.mem_cons_self a t)]
    · exact dropWhile_not rest hrest
  | cons a t ih =>
    have ha : Char.isDigit a = true := hds a (List.mem_cons_self a t)
    obtain ⟨ih1, ih2⟩ := ih (fun c hc => hds c (List.mem_cons_of_mem a hc))
    constructor
    · simp only [List.cons_append, List.takeWhile_cons, ha, if_pos]
      rw [ih1]
    · simp only [List.cons_append, List.dropWhile_cons, ha, if_pos]
      rw [ih2]

/-- C6, counterexample: `parse_size "8Byte"` is rejected with the
unknown-unit error: the regex group matches `BYTE` but `UNIT_MAP` has no
`BYTE` key (only `B`), so the spelled-out `Byte` unit the claim lists is
not accepted. -/
theorem c6_counterexample :
    parse_size "8Byte" = .error (.unknownUnit "BYTE") ∧
    parse_size "8 Byte" = .error (.unknownUnit "BYTE") := by
  constructor <;> decide

/-- C6 (amended): for a magnitude written with ASCII digits `ds` and a unit
token `us` made of ASCII letters, `parse_size` accepts exactly the unit
spellings whose uppercase form is `B`, `KBYTE`, `MBYTE` or `GBYTE`
(multipliers 1, 1024, 1024², 1024³), a missing unit defaults to bytes
(multiplier 1); the uppercase forms `BYTE` and `BBYTE` match the format
but are rejected as unknown units, and every other unit token is rejected
as an invalid format. -/
theorem c6_units (ds us : List Char)
    (hne : ds ≠ [])
    (hds : ∀ c ∈ ds, c ∈ ['9', '8', '7', '6', '5', '4', '3', '2', '1', '0'])
    (hus : ∀ c ∈ us,
      c ∈ ['Z', 'Y', 'X', 'W', 'V', 'U', 'T', 'S', 'R', 'Q', 'P', 'O', 'N', 'M', 'L',
           'K', 'J', 'I', 'H', 'G', 'F', 'E', 'D', 'C', 'B', 'A',
           'z', 'y', 'x', 'w', 'v', 'u', 't', 's', 'r', 'q', 'p', 'o', 'n', 'm', 'l',
           'k', 'j', 'i', 'h', 'g', 'f', 'e', 'd', 'c', 'b', 'a']) :
    (us = [] → parse_size ⟨ds ++ us⟩ = .ok (digitsVal ds * 1)) ∧
    (toUpperL us = "B".data → parse_size ⟨ds ++ us⟩ = .ok (digitsVal ds * 1)) ∧
    (toUpperL us = "KBYTE".data → parse_size ⟨ds ++ us⟩ = .ok (digitsVal ds * 1024)) ∧
    (toUpperL us = "MBYTE".data → parse_size ⟨ds ++ us⟩ = .ok (digitsVal ds * 1024 ^ 2)) ∧
    (toUpperL us = "GBYTE".data → parse_size ⟨ds ++ us⟩ = .ok (digitsVal ds * 1024 ^ 3)) ∧
    (toUpperL us = "BYTE".data → parse_size ⟨ds ++ us⟩ = .error (.unknownUnit "BYTE")) ∧
    (toUpperL us = "BBYTE".data → parse_size ⟨ds ++ us⟩ = .error (.unknownUnit "BBYTE")) ∧
    (us ≠ [] → unitAlternatives.contains (toUpperL us) = false →
      parse_size ⟨ds ++ us⟩ = .error (.invalidFormat ⟨ds ++ toUpperL us⟩)) := by
  have hdigit := fun c hc => digit_char_props c (hds c hc)
  have hletter := fun c hc => letter_char_props c (hus c hc)
  have hde : ds.isEmpty = false := by
    cases ds with
    | nil => exact absurd rfl hne
    | cons a t => rfl
  have key : removeSpaces (toUpperL (pyStrip (ds ++ us))) = ds ++ toUpperL us := by
    rw [pyStrip_id]
    · have hTa : toUpperL (ds ++ us) = toUpperL ds ++ toUpperL us := List.map_append _ _ _
      rw [hTa, mapUpper_id ds (fun c hc => (hdigit c hc).2.1)]
      rw [removeSpaces_id]
      intro c hc
      rcases List.mem_append.mp hc with hc | hc
      · exact (hdigit c hc).2.2.2
      · obtain ⟨c0, hc0, rfl⟩ := List.mem_map.mp hc
        exact (hletter c0 hc0).2.2.2
    · intro c hc
      rcases List.mem_append.mp hc with hc | hc
      · exact (hdigit c hc).2.2.1
      · exact (hletter c hc).1
  have hsplit := digits_prefix_split ds (toUpperL us)
    (fun c hc => (hdigit c hc).1)
    (fun c hc => by
      obtain ⟨c0, hc0, rfl⟩ := List.mem_map.mp hc
      exact (hletter c0 hc0).2.2.1)
  have main : ∀ rest : List Char, toUpperL us = rest →
      parse_size ⟨ds ++ us⟩ =
        (if ds.isEmpty then .error (.invalidFormat ⟨ds ++ rest⟩)
         else if !(rest.isEmpty || unitAlternatives.contains rest) then
           .error (.invalidFormat ⟨ds ++ rest⟩)
         else
           let unit : String := if rest.isEmpty then "B" else ⟨rest⟩
           match UNIT_MAP.lookup unit with
           | some m => .ok (digitsVal ds * m)
           | none => .error (.unknownUnit unit)) := by
    intro rest hrest
    subst hrest
    unfold parse_size
    simp only [data_mk, key, hsplit.1, hsplit.2]
  refine ⟨?_, ?_, ?_, ?_, ?_, ?_, ?_, ?_⟩
  · intro hu
    rw [main [] (by simp [hu, toUpperL]), hde]
    rfl
  · intro hu
    rw [main _ hu, hde]
    rfl
  · intro hu
    rw [main _ hu, hde]
    rfl
  · intro hu
    rw [main _ hu, hde]
    rfl
  · intro hu
    rw [main _ hu, hde]
    rfl
  · intro hu
    rw [main _ hu, hde]
    rfl
  · intro hu
    rw [main _ hu, hde]
    rfl
  · intro hu hcont
    rw [main _ rfl, hde]
    have hie : (toUpperL us).isEmpty = false := by
      cases us with
      | nil => exact absurd rfl hu
      | cons a t => rfl
    simp only [Bool.false_eq_true, if_false, hie, hcont, Bool.or_self, Bool.not_false,
      if_true]

/-- C6 witness: `8KByte` parses to `8 * 1024` and confirms the
case-insensitive spelling. -/
theorem c6_units_witness :
    parse_size ⟨['8'] ++ "KByte".data⟩ = .ok (digitsVal ['8'] * 1024) :=
  (c6_units ['8'] "KByte".data (by decide) (by decide) (by decide)).2.2.1 (by decide)

/-! ### Claims C7 and C9 (line handling in `parse_txt`) -/

theorem isKeyLine_false (ln : String) (h : isKeyLine ln = false) :
    lowStartsWith ln "memoria_fisica" = false ∧
    lowStartsWith ln "memoria_virtual" = false ∧
    (lowStartsWith ln "tamanio_pagina" || lowStartsWith ln "tamaño_pagina") = false ∧
    (lowStartsWith ln "tabla_paginas:" || lowStartsWith ln "tabla_de_paginas:") = false ∧
    (lowStartsWith ln "direcciones_virtuales:" || lowStartsWith ln "direcciones:") = false := by
  unfold isKeyLine at h
  simp only [Bool.or_eq_false_iff] at h ⊢
  tauto

/-- C9, counterexample: not *every* line after a `direcciones:` marker is
taken as a virtual address — the parameter/marker prefixes are checked
first.  Here the line `memoria_fisica: 8B`, though it appears after the
`direcciones:` marker, is consumed as the physical-size parameter (the
result records 8 bytes) and never enters the address list; only `1A`
does. -/
theorem c9_counterexample :
    parse_txt
      "memoria_virtual: 16B\ntamanio_pagina: 4B\ndirecciones:\nmemoria_fisica: 8B\n1A"
      = .ok ⟨8, 16, 4, [], ["1A"]⟩ := by
  decide

/-- C9 (amended: lines that themselves match one of the recognised
parameter or section-marker prefixes are excluded — the program consumes
them as parameters or mode switches even after the `direcciones` marker):
the same configuration text also carries the virtual addresses:
(1) in `dirs` mode (after a `direcciones_virtuales:`/`direcciones:`
marker) every non-marker data line is appended verbatim to the address
list; (2) outside any section a comma-free line matching
`^(0x)?[0-9A-Fa-f]+$` is appended to the address list; (3) outside any
section a comma line whose first field is all digits becomes a page-table
entry; (4) the address list only ever grows at its end, so addresses come
out in the order their lines appear. -/
theorem c9_address_lines :
    (∀ (st : PState) (ln : String), st.mode = .dirs → isKeyLine ln = false →
        parseLine st ln = .ok { st with virtual_addrs := st.virtual_addrs ++ [ln] }) ∧
    (∀ (st : PState) (ln : String), st.mode = .none → isKeyLine ln = false →
        (',' ∈ ln.data → False) → matchesHexLine ln.data = true →
        parseLine st ln = .ok { st with virtual_addrs := st.virtual_addrs ++ [ln] }) ∧
    (∀ (st : PState) (ln : String) (fr : Option Int), st.mode = .none →
        isKeyLine ln = false → ',' ∈ ln.data →
        pyIsDigit (((pySplitChar ',' ln.data).map pyStrip).getD 0 []) = true →
        parseFrameTok (((pySplitChar ',' ln.data).map pyStrip).getD 1 []) = some fr →
        parseLine st ln = .ok { st with page_table := (dictInsert st.page_table
          ((digitsVal (((pySplitChar ',' ln.data).map pyStrip).getD 0 []) : Nat) : Int) fr) }) ∧
    (∀ (st : PState) (ln : String) (st' : PState), parseLine st ln = .ok st' →
        ∃ t, st'.virtual_addrs = st.virtual_addrs ++ t) := by
  refine ⟨?_, ?_, ?_, ?_⟩
  · intro st ln hm hkey
    obtain ⟨h1, h2, h3, h4, h5⟩ := isKeyLine_false ln hkey
    unfold parseLine
    simp only [h1, h2, h3, h4, h5, Bool.false_eq_true, if_false, hm]
  · intro st ln hm hkey hnc hhex
    obtain ⟨h1, h2, h3, h4, h5⟩ := isKeyLine_false ln hkey
    unfold parseLine
    simp only [h1, h2, h3, h4, h5, Bool.false_eq_true, if_false, hm]
    rw [if_neg (by simpa using hnc), if_pos hhex]
  · intro st ln fr hm hkey hc hd hfr
    obtain ⟨h1, h2, h3, h4, h5⟩ := isKeyLine_false ln hkey
    unfold parseLine
    simp only [h1, h2, h3, h4, h5, Bool.false_eq_true, if_false, hm]
    rw [if_pos (by simpa using hc), if_pos hd, hfr]
  · intro st ln st' h
    unfold parseLine at h
    repeat' split at h
    all_goals cases h
    all_goals
      first
        | exact ⟨[ln], rfl⟩
        | (refine ⟨[], ?_⟩; simp)

/-- C9 witness: a line in `dirs` mode and a headerless hex line both land
at the end of the address list; a headerless `2, 5` line becomes a table
entry. -/
theorem c9_address_lines_witness :
    parseLine ⟨none, none, none, [], ["a0"], .dirs⟩ "1A2B" =
      .ok ⟨none, none, none, [], ["a0", "1A2B"], .dirs⟩ ∧
    parseLine ⟨none, none, none, [], [], .none⟩ "0x1f" =
      .ok ⟨none, none, none, [], ["0x1f"], .none⟩ ∧
    parseLine ⟨none, none, none, [], [], .none⟩ "2, 5" =
      .ok ⟨none, none, none, [(2, some 5)], [], .none⟩ :=
  ⟨c9_address_lines.1 ⟨none, none, none, [], ["a0"], .dirs⟩ "1A2B" rfl (by decide),
   c9_address_lines.2.1 ⟨none, none, none, [], [], .none⟩ "0x1f" rfl (by decide)
     (by decide) (by decide),
   c9_address_lines.2.2.1 ⟨none, none, none, [], [], .none⟩ "2, 5" (some 5) rfl
     (by decide) (by decide) (by decide) (by decide)⟩

/-! ### Claim C10 (exceeds-virtual branch unreachable) -/

/-- C10, counterexample: virtual=4B and page=8B are both powers of two and
address `0 < 2^virtualAddressBits = 4` parses fine, yet the translator
*does* return the `'Dirección excede memoria virtual'` error:
`page_number_bits = -1` slices one bit off the 2-bit address string, the
extracted page index `0` is not below `num_pages_virtual = 4 // 8 = 0`,
so the supposedly unreachable branch is taken. -/
theorem c10_counterexample :
    is_power_of_two 4 = true ∧ is_power_of_two 8 = true ∧
    compute_bits 4 8 8 = .ok ⟨3, 2, -1, 0, 1, 1⟩ ∧
    pyIntHex? (normalize_hex "0").data = some 0 ∧
    (0 : Nat) < 2 ^ Computed.virtual_address_bits ⟨3, 2, -1, 0, 1, 1⟩ ∧
    translate_one "0" ⟨3, 2, -1, 0, 1, 1⟩ [] = .exceedsVirtual 0 := by
  decide

/-- C10 (amended with `pageBytes < virtualBytes`): for a configuration
with `virtualBytes = 2^b`, `pageBytes = 2^a`, `a < b`, and any parsed
address `A < 2^virtualAddressBits`, the extracted page index is
`A / pageBytes`, it is strictly below `virtualPageCount`, and the
translator's `'Dirección excede memoria virtual'` branch is unreachable
whatever the page table contains. -/
theorem c10_no_exceeds (a b mem_phys A : Nat) (c : Computed) (vhex : String)
    (hab : a < b)
    (hc : compute_bits (2 ^ b) mem_phys (2 ^ a) = .ok c)
    (hparse : pyIntHex? (normalize_hex vhex).data = some A)
    (hA : A < 2 ^ c.virtual_address_bits) :
    bitsToNat (pageBinOf A c) = A / 2 ^ a ∧
    A / 2 ^ a < c.num_pages_virtual ∧
    ∀ (pt : List (Nat × Option Int)) q, translate_one vhex c pt ≠ .exceedsVirtual q := by
  rw [compute_bits_pow2] at hc
  have hcc := Except.ok.inj hc
  have hvab : c.virtual_address_bits = b := by rw [← hcc]
  have hpnb : c.page_number_bits = (c.virtual_address_bits : Int) - (a : Int) := by
    rw [← hcc]
  have hnpv : c.num_pages_virtual = 2 ^ b / 2 ^ a := by rw [← hcc]
  have hA' : A < 2 ^ b := by rw [← hvab]; exact hA
  obtain ⟨hpv, -, -, hne⟩ := pageBin_spec c A a hpnb (by omega) hA
  have hdiv : 2 ^ b / 2 ^ a * 2 ^ a = 2 ^ b := by
    rw [Nat.pow_div (le_of_lt hab) (by norm_num), ← pow_add]
    congr 1
    omega
  have hlt' : A / 2 ^ a < c.num_pages_virtual := by
    rw [hnpv, Nat.div_lt_iff_lt_mul (Nat.pos_pow_of_pos _ (by norm_num)), hdiv]
    exact hA'
  refine ⟨hpv, hlt', fun pt q => ?_⟩
  exact translate_one_ne_exceeds vhex c pt A hparse hne (by rw [hpv]; exact hlt') q

/-- C10 witness: the 16B/16B/4B configuration with address `0x7`:
page index `1 < 4` and no `exceedsVirtual` outcome for the dense table
`{1 ↦ 2}`. -/
theorem c10_no_exceeds_witness :
    bitsToNat (pageBinOf 7 ⟨2, 4, 2, 4, 4, 2⟩) = 7 / 2 ^ 2 ∧
    7 / 2 ^ 2 < Computed.num_pages_virtual ⟨2, 4, 2, 4, 4, 2⟩ ∧
    ∀ (pt : List (Nat × Option Int)) q,
      translate_one "7" ⟨2, 4, 2, 4, 4, 2⟩ pt ≠ .exceedsVirtual q :=
  c10_no_exceeds 2 4 16 7 ⟨2, 4, 2, 4, 4, 2⟩ "7" (by decide) (by decide) (by decide) (by decide)

/-! ### Claims C4 and C5 (lookup outcomes for in-range addresses)

Both claims speak about what the dense-table lookup produces for an
in-range address, so both need the same restriction as C1/C10: with
`pageBytes = virtualBytes` the page field is empty and `int("", 2)`
raises before the lookup is ever consulted.  The shared facts about a
power-of-two configuration with `pageBytes < virtualBytes` are collected
once here. -/

theorem pow2_split_facts (a b mem_phys A : Nat) (c : Computed)
    (hab : a < b)
    (hc : compute_bits (2 ^ b) mem_phys (2 ^ a) = .ok c)
    (hA : A < 2 ^ c.virtual_address_bits) :
    bitsToNat (pageBinOf A c) = A / 2 ^ a ∧
    pageBinOf A c ≠ [] ∧
    bitsToNat (pageBinOf A c) < c.num_pages_virtual := by
  rw [compute_bits_pow2] at hc
  have hcc := Except.ok.inj hc
  have hvab : c.virtual_address_bits = b := by rw [← hcc]
  have hpnb : c.page_number_bits = (c.virtual_address_bits : Int) - (a : Int) := by
    rw [← hcc]
  have hnpv : c.num_pages_virtual = 2 ^ b / 2 ^ a := by rw [← hcc]
  have hA' : A < 2 ^ b := by rw [← hvab]; exact hA
  obtain ⟨hpv, -, -, hne⟩ := pageBin_spec c A a hpnb (by omega) hA
  have hdiv : 2 ^ b / 2 ^ a * 2 ^ a = 2 ^ b := by
    rw [Nat.pow_div (le_of_lt hab) (by norm_num), ← pow_add]
    congr 1
    omega
  refine ⟨hpv, hne, ?_⟩
  rw [hpv, hnpv, Nat.div_lt_iff_lt_mul (Nat.pos_pow_of_pos _ (by norm_num)), hdiv]
  exact hA'

/-- C4, counterexample: physical=16B, virtual=16B, page=4B
(`frameCount = 4`), dense table mapping page 0 to frame 7.  Translating
`0x0` hits the out-of-range frame, and the code returns the `{'error':
"Frame number 7 exceeds physical frames 4"}` dict — an error result, *not*
a page-fault classification as the claim states (though indeed never a
`Success`). -/
theorem c4_counterexample :
    compute_bits 16 16 4 = .ok ⟨2, 4, 2, 4, 4, 2⟩ ∧
    dictGet (densify [(0, some 7)] 4) 0 = some (some (7 : Int)) ∧
    Computed.num_frames ⟨2, 4, 2, 4, 4, 2⟩ ≤ 7 ∧
    translate_one "0" ⟨2, 4, 2, 4, 4, 2⟩ (densify [(0, some 7)] 4) = .frameExceeds 7 4 ∧
    isPageFaultB (translate_one "0" ⟨2, 4, 2, 4, 4, 2⟩ (densify [(0, some 7)] 4)) = false ∧
    isSuccessB (translate_one "0" ⟨2, 4, 2, 4, 4, 2⟩ (densify [(0, some 7)] 4)) = false := by
  decide

/-- C4 (amended: restricted, like C1 and C10, to configurations with
power-of-two sizes and `pageBytes < virtualBytes`, and the outcome is the
hard *error* result naming the frame and the frame count — `frameExceeds`,
which is not the page-fault classification — and never a `Success`). -/
theorem c4_frame_error (a b mem_phys A : Nat) (F : Int) (c : Computed)
    (pt : List (Nat × Option Int)) (vhex : String)
    (hab : a < b)
    (hc : compute_bits (2 ^ b) mem_phys (2 ^ a) = .ok c)
    (hparse : pyIntHex? (normalize_hex vhex).data = some A)
    (hA : A < 2 ^ c.virtual_address_bits)
    (hmap : dictGet pt (A / 2 ^ a) = some (some F))
    (hge : (c.num_frames : Int) ≤ F) :
    translate_one vhex c pt = .frameExceeds F c.num_frames ∧
    isPageFaultB (translate_one vhex c pt) = false ∧
    isSuccessB (translate_one vhex c pt) = false := by
  obtain ⟨hpv, hne, hlt⟩ := pow2_split_facts a b mem_phys A c hab hc hA
  have hmap' : (dictGet pt (bitsToNat (pageBinOf A c))).join = some F := by
    rw [hpv, hmap]
    rfl
  have h := translate_one_frameExceeds vhex c pt A F hparse hne hlt hmap' hge
  rw [h]
  exact ⟨rfl, rfl, rfl⟩

/-- C4 witness: 16B/16B/4B configuration, dense table mapping page 0 to
frame 9 ≥ 4, address `0x1`. -/
theorem c4_frame_error_witness :
    translate_one "1" ⟨2, 4, 2, 4, 4, 2⟩ (densify [(0, some 9)] 4) = .frameExceeds 9 4 ∧
    isPageFaultB (translate_one "1" ⟨2, 4, 2, 4, 4, 2⟩ (densify [(0, some 9)] 4)) = false ∧
    isSuccessB (translate_one "1" ⟨2, 4, 2, 4, 4, 2⟩ (densify [(0, some 9)] 4)) = false :=
  c4_frame_error 2 4 16 1 9 ⟨2, 4, 2, 4, 4, 2⟩ (densify [(0, some 9)] 4) "1"
    (by decide) (by decide) (by decide) (by decide) (by decide) (by decide)

/-- C5, counterexample: with `virtualBytes = pageBytes = 4096` (an
ordinary power-of-two configuration) and an empty authored table, address
`0` is in range and its page index `0` is unmapped in the dense table,
yet the translator does not produce the page-fault dict: the empty page
field makes `int("", 2)` raise, and the batch handler reports a plain
error dict that names no page index. -/
theorem c5_counterexample :
    compute_bits 4096 4096 4096 = .ok ⟨12, 12, 0, 1, 1, 1⟩ ∧
    pyIntHex? (normalize_hex "0").data = some 0 ∧
    (0 : Nat) < 2 ^ 12 ∧
    (dictGet (densify [] 1) (0 / 4096)).join = none ∧
    translate_one "0" ⟨12, 12, 0, 1, 1, 1⟩ (densify [] 1) = .emptyField ∧
    isPageFaultB (translate_one "0" ⟨12, 12, 0, 1, 1, 1⟩ (densify [] 1)) = false := by
  decide

/-- C5 (amended: restricted, like C1 and C10, to configurations with
power-of-two sizes and `pageBytes < virtualBytes`): an in-range virtual
address whose page index `A / pageBytes` is unmapped in the dense table —
absent (`dictGet = none`) or the explicit sentinel (`dictGet = some
none`), both collapsed by `Option.join` — always produces the page-fault
dict naming that page index, never a `Success`. -/
theorem c5_unmapped_fault (a b mem_phys A : Nat) (c : Computed)
    (pt : List (Nat × Option Int)) (vhex : String)
    (hab : a < b)
    (hc : compute_bits (2 ^ b) mem_phys (2 ^ a) = .ok c)
    (hparse : pyIntHex? (normalize_hex vhex).data = some A)
    (hA : A < 2 ^ c.virtual_address_bits)
    (hunmapped : (dictGet pt (A / 2 ^ a)).join = none) :
    ∃ pf, translate_one vhex c pt = .pageFault pf ∧
      pf.page_index = A / 2 ^ a ∧
      pf.message = "Page fault: entrada inválida (índice "
        ++ toString (A / 2 ^ a) ++ ")" ∧
      isSuccessB (translate_one vhex c pt) = false := by
  obtain ⟨hpv, hne, hlt⟩ := pow2_split_facts a b mem_phys A c hab hc hA
  have hun' : (dictGet pt (bitsToNat (pageBinOf A c))).join = none := by
    rw [hpv]
    exact hunmapped
  have h := translate_one_pageFault vhex c pt A hparse hne hlt hun'
  rw [h]
  refine ⟨_, rfl, hpv, ?_, rfl⟩
  rw [hpv]

/-- C5 witness: 16B/16B/4B configuration, sparse table `{0 ↦ 1}`, address
`0x7`: page index `7 / 4 = 1` is absent from the sparse table, hence
unmapped in the dense table, and translation page-faults naming index 1. -/
theorem c5_unmapped_fault_witness :
    ∃ pf, translate_one "7" ⟨2, 4, 2, 4, 4, 2⟩ (densify [(0, some 1)] 4) = .pageFault pf ∧
      pf.page_index = 7 / 2 ^ 2 ∧
      pf.message = "Page fault: entrada inválida (índice "
        ++ toString (7 / 2 ^ 2) ++ ")" ∧
      isSuccessB (translate_one "7" ⟨2, 4, 2, 4, 4, 2⟩ (densify [(0, some 1)] 4)) = false :=
  c5_unmapped_fault 2 4 16 7 ⟨2, 4, 2, 4, 4, 2⟩ (densify [(0, some 1)] 4) "7"
    (by decide) (by decide) (by decide) (by decide) (by decide)

/-- C3 witness: physical=16B, virtual=16B, page=4B: `frameCount = 4 = 2^2`
and `frame_bits = 2`. -/
theorem c3_frame_bits_witness :
    Computed.frame_bits ⟨2, 4, 2, 4, 4, 2⟩ = 2 :=
  (c3_frame_bits 16 16 4 ⟨2, 4, 2, 4, 4, 2⟩ (by decide)).2 2 (by decide) (by decide)

end Paging

